import Mathlib

/-!
Shallow embedding of the ONDC TAT Breach Dashboard (`src/app.py`).

Timestamps are modelled as rational numbers of seconds (pandas `Timestamp`
arithmetic is exact at this granularity for the operations the program
performs); a missing timestamp (`NaT` / `None`) is `Option.none`.
Durations are rational minutes, as in the source (`total_seconds()/60.0`).
Display formatting (`fmt_time`, `strftime`, the `mm:ss` gap string) is
presentation-only and is abstracted to the underlying value, with `none`
standing for the em-dash sentinel.
-/

/-- Grace window in minutes for "within 5 mins of breach" (src/app.py line 24). -/
def BREACH_NOTE_GRACE_MIN : ℚ := 5

/-- The five fixed lifecycle stage keys, in definition order (src/app.py lines 48-68). -/
inductive StageKey where
  | created_to_placed
  | placed_to_accepted
  | accepted_to_in_kitchen
  | in_kitchen_to_ready
  | ready_to_shipped
  deriving DecidableEq, Repr

/-- Stage display labels (src/app.py `STAGE_LABELS`). -/
def STAGE_LABELS : StageKey → String
  | .created_to_placed => "Created → Placed"
  | .placed_to_accepted => "Placed → Accepted"
  | .accepted_to_in_kitchen => "Order Accepted → Kitchen"
  | .in_kitchen_to_ready => "In Kitchen → Ready"
  | .ready_to_shipped => "Ready → Shipped"

/-- Per-stage thresholds in minutes (src/app.py `THRESHOLDS`). -/
def THRESHOLDS : StageKey → ℕ
  | .created_to_placed => 5
  | .placed_to_accepted => 7
  | .accepted_to_in_kitchen => 5
  | .in_kitchen_to_ready => 15
  | .ready_to_shipped => 10

/-- Stage keys in fixed definition order (src/app.py `STAGE_ORDER`). -/
def STAGE_ORDER : List StageKey :=
  [.created_to_placed, .placed_to_accepted, .accepted_to_in_kitchen,
   .in_kitchen_to_ready, .ready_to_shipped]

/-- `diff_min` (src/app.py lines 37-40): `None` when either endpoint is `NaT`,
otherwise `(b - a)` in minutes clamped below at 0. -/
def diff_min (a b : Option ℚ) : Option ℚ :=
  match a, b with
  | some a, some b => some (max 0 ((b - a) / 60))
  | _, _ => none

/-- A canonical order record (output of `map_orders`, src/app.py lines 152-165). -/
structure OrderRecord where
  id : String
  createdOn : Option ℚ
  placedAt : Option ℚ
  acceptedAt : Option ℚ
  readyAt : Option ℚ
  shippedAt : Option ℚ
  deriving DecidableEq, Repr

/-- One stage's computed result (the dict built by `add_stage`,
src/app.py lines 73-83). -/
structure StageResult where
  key : StageKey
  label : String
  threshold : ℕ
  duration : Option ℚ
  breached : Bool
  segmentStart : Option ℚ
  segmentEnd : Option ℚ
  deriving DecidableEq, Repr

/-- `add_stage` (src/app.py lines 73-83): builds one `StageResult`;
`breached` is `dur is not None and dur > THRESHOLDS[key]`. -/
def add_stage (key : StageKey) (s e : Option ℚ) : StageResult :=
  let dur := diff_min s e
  { key := key
    label := STAGE_LABELS key
    threshold := THRESHOLDS key
    duration := dur
    breached := match dur with
      | some d => decide ((THRESHOLDS key : ℚ) < d)
      | none => false
    segmentStart := s
    segmentEnd := e }

/-- The five `add_stage` calls of `compute_breaches`, in source order
(src/app.py lines 85-89). -/
def stages_of (o : OrderRecord) : List StageResult :=
  [add_stage .created_to_placed o.createdOn o.placedAt,
   add_stage .placed_to_accepted o.placedAt o.acceptedAt,
   add_stage .accepted_to_in_kitchen o.acceptedAt o.readyAt,
   add_stage .in_kitchen_to_ready o.acceptedAt o.readyAt,
   add_stage .ready_to_shipped o.readyAt o.shippedAt]

/-- The sort key of the `sorted(breached, key=lambda s: s["segmentEnd"])` call:
every element sorted there has a present `segmentEnd`, so the default is
never consulted. -/
def endVal (s : StageResult) : ℚ :=
  s.segmentEnd.getD 0

/-- Comparison used to model Python's stable `sorted` by `segmentEnd`. -/
def endLE (s t : StageResult) : Bool :=
  decide (endVal s ≤ endVal t)

/-- The `breached` filter of `compute_breaches` (src/app.py line 91):
stages that breached and have a present `segmentEnd`. -/
def breached_list (o : OrderRecord) : List StageResult :=
  (stages_of o).filter (fun s => s.breached && s.segmentEnd.isSome)

/-- `compute_breaches` (src/app.py lines 70-99): the five stages, the first
breach (earliest `segmentEnd` among breached stages with a present end,
stable sort), and the earliest breach time. -/
def compute_breaches (o : OrderRecord) :
    List StageResult × Option StageResult × Option ℚ :=
  let stages := stages_of o
  match (breached_list o).mergeSort endLE with
  | [] => (stages, none, none)
  | b :: _ => (stages, some b, b.segmentEnd)

/-! ## Python string primitives

The handful of `str` methods the code uses (`lower`, `strip`, `replace`),
implemented structurally over the character list so that concrete
instances evaluate.  `lower` is ASCII case-folding, which is exact for
every header string the program compares. -/

/-- ASCII lower-casing of one character (Python `str.lower` restricted to
the ASCII range the header data lives in). -/
def asciiLower (c : Char) : Char :=
  if 'A' ≤ c ∧ c ≤ 'Z' then Char.ofNat (c.toNat + 32) else c

/-- Python `str.lower`. -/
def pyLower (s : String) : String :=
  ⟨s.data.map asciiLower⟩

/-- The whitespace characters `str.strip` removes in this data. -/
def isSpaceChar (c : Char) : Bool :=
  c = ' ' || c = '\t' || c = '\n' || c = '\r'

/-- Python `str.strip()`: drop leading and trailing whitespace. -/
def pyStrip (s : String) : String :=
  ⟨((s.data.dropWhile isSpaceChar).reverse.dropWhile isSpaceChar).reverse⟩

/-- Fuel-indexed loop of Python `str.replace`: leftmost-first,
non-overlapping; one unit of fuel per character examined (the patterns
used are nonempty, so the initial fuel `length` always suffices). -/
def replaceLoop (pat rep : List Char) : ℕ → List Char → List Char
  | 0, l => l
  | _ + 1, [] => []
  | fuel + 1, c :: rest =>
    if pat.isPrefixOf (c :: rest) then
      rep ++ replaceLoop pat rep fuel (rest.drop (pat.length - 1))
    else
      c :: replaceLoop pat rep fuel rest

/-- Python `s.replace(pat, rep)`. -/
def pyReplace (s pat rep : String) : String :=
  ⟨replaceLoop pat.data rep.data s.data.length s.data⟩

/-! ## Raw cells and rows

A spreadsheet cell, as the Python code observes it after `pd.read_excel`:
a blank cell is `NaN`/`NaT` (`Cell.nan`), a text cell is a string, a
date-like cell is a timestamp.  `pick` returning Python `None` on a miss
is `Option.none` at the call sites. -/

/-- A scalar cell value. -/
inductive Cell where
  | nan
  | str (s : String)
  | time (t : ℚ)
  deriving DecidableEq, Repr

/-- `pd.isna` applied to the result of `pick` (Python `None` and `NaN`/`NaT`
are both NA; strings and timestamps are not, including the empty string). -/
def isna : Option Cell → Bool
  | none => true
  | some .nan => true
  | some (.str _) => false
  | some (.time _) => false

/-- Python truthiness of a cell value: `NaN` is truthy (a nonzero float),
a string is truthy iff nonempty, a timestamp is truthy. -/
def truthy : Cell → Bool
  | .nan => true
  | .str s => !s.data.isEmpty
  | .time _ => true

/-- Python `str()` of a cell value; the timestamp rendering is abstract but
fixed (only used where the code stringifies an identifier cell). -/
def pyStr : Cell → String
  | .nan => "nan"
  | .str s => s
  | .time t => toString t

/-- Python `str()` of a `pick` result (`str(None) = "None"`). -/
def pyStrOpt : Option Cell → String
  | none => "None"
  | some c => pyStr c

/-- `x or ""` on a `pick` result: the cell when truthy, else the default. -/
def py_or (c : Option Cell) (dflt : Cell) : Cell :=
  match c with
  | none => dflt
  | some v => if truthy v then v else dflt

/-- `.strip()` on a cell: defined only for strings; on any other value the
Python call raises `AttributeError` (modelled as `none`). -/
def strip_cell : Cell → Option String
  | .str s => some (pyStrip s)
  | _ => none

/-- `normalize` (src/app.py lines 26-27): lowercase, trim, newlines and tabs
to spaces, then one pass of collapsing double spaces. -/
def normalizeHeader (s : String) : String :=
  pyReplace (pyReplace (pyReplace (pyStrip (pyLower s)) "\n" " ") "\t" " ") "  " " "

/-- A data row: the ordered (column label, cell) pairs, as `row.index`
exposes them. -/
abbrev Row := List (String × Cell)

/-- The lookup through `keys = \x7bnormalize(k): k for k in row.index\x7d`:
a Python dict comprehension lets a later duplicate normalized key
overwrite an earlier one, hence the reverse search. -/
def row_lookup (row : Row) (key : String) : Option Cell :=
  (row.reverse.find? (fun p => normalizeHeader p.1 == key)).map (·.2)

/-- `pick` (src/app.py lines 123-129): first candidate alias whose
normalized form is a column of the row wins; `None` otherwise. -/
def pick (row : Row) : List String → Option Cell
  | [] => none
  | c :: cs =>
    match row_lookup row (normalizeHeader c) with
    | some v => some v
    | none => pick row cs

/-- `has_any` (src/app.py lines 131-133). -/
def has_any (cols : List String) (aliases : List String) : Bool :=
  aliases.any (fun a => cols.any (fun c => normalizeHeader c == normalizeHeader a))

/-- `ORDER_ID_ALIASES` (src/app.py lines 102-105). -/
def ORDER_ID_ALIASES : List String :=
  ["Network Order Id", "Network Order ID", "Network order id", "order id",
   "Order ID", "Order No", "Order Number", "Order #", "Order Reference",
   "Network Ref"]

/-- `ORDERS_COL_ALIASES` (src/app.py lines 106-112), keyed by canonical field. -/
def ORDERS_COL_ALIASES : String → List String
  | "createdOn" => ["Created On", "Created", "Created Date", "Created Time"]
  | "placedAt" => ["Order Placed Time", "Placed At", "Order Placed", "Placed Time"]
  | "acceptedAt" => ["Order Accepted Time", "Accepted At", "Order Accepted", "Accepted Time"]
  | "readyAt" => ["Order Ready Time", "Ready At", "Order Ready", "Ready Time"]
  | "shippedAt" => ["Shipped At Date & Time", "Shipped at", "Shipped At", "Shipped Time", "Out For Delivery"]
  | _ => []

/-- The canonical order timestamp fields, in the dict's insertion order. -/
def ORDERS_FIELDS : List String :=
  ["createdOn", "placedAt", "acceptedAt", "readyAt", "shippedAt"]

/-- `NOTES_ID_ALIASES` (src/app.py lines 113-116). -/
def NOTES_ID_ALIASES : List String :=
  ["Network order ID", "Network Order Id", "Network Order ID", "Network order id",
   "Order ID", "Order No", "Order Number", "Order #", "Order Reference",
   "Network Ref"]

/-- `NOTES_COL_ALIASES` (src/app.py lines 117-121). -/
def NOTES_COL_ALIASES : String → List String
  | "noteAt" => ["Created at", "Note Time", "Created On", "Created"]
  | "description" => ["Description", "Notes", "Comment", "Body"]
  | "agent" => ["Reported by", "Agent", "Agent Name", "User", "Updated By",
                "Created By", "Author", "Owner", "Assignee"]
  | _ => []

/-- `validate_orders_columns` (src/app.py lines 135-142); each missing-field
message is abstracted to the canonical name it reports. -/
def validate_orders_columns (cols : List String) : List String :=
  (if has_any cols ORDER_ID_ALIASES then [] else ["identifier"]) ++
    ORDERS_FIELDS.filter (fun f => !has_any cols (ORDERS_COL_ALIASES f))

/-- `validate_notes_columns` (src/app.py lines 144-150). -/
def validate_notes_columns (cols : List String) : List String :=
  (if has_any cols NOTES_ID_ALIASES then [] else ["identifier"]) ++
    (if has_any cols (NOTES_COL_ALIASES "noteAt") then [] else ["noteAt"])

/-- `to_dt` (src/app.py lines 29-35): `NaT` for `None`, the empty string and
`NaN`; a date-like cell parses to itself; a nonempty string goes through
pandas' best-effort parser, abstracted as the parameter `parse`
(coercion failure is `none`, never an error). -/
def to_dt (parse : String → Option ℚ) (c : Option Cell) : Option ℚ :=
  match c with
  | none => none
  | some .nan => none
  | some (.str s) => if s.data.isEmpty then none else parse s
  | some (.time t) => some t

/-- `map_orders` (src/app.py lines 152-165): rows whose identifier `pick`
is NA are dropped; kept rows become `OrderRecord`s. -/
def map_orders (parse : String → Option ℚ) : List Row → List OrderRecord
  | [] => []
  | r :: rs =>
    let idv := pick r ORDER_ID_ALIASES
    if isna idv then map_orders parse rs
    else
      { id := pyStrip (pyStrOpt idv)
        createdOn := to_dt parse (pick r (ORDERS_COL_ALIASES "createdOn"))
        placedAt := to_dt parse (pick r (ORDERS_COL_ALIASES "placedAt"))
        acceptedAt := to_dt parse (pick r (ORDERS_COL_ALIASES "acceptedAt"))
        readyAt := to_dt parse (pick r (ORDERS_COL_ALIASES "readyAt"))
        shippedAt := to_dt parse (pick r (ORDERS_COL_ALIASES "shippedAt")) }
        :: map_orders parse rs

/-- A canonical annotation record (output of `map_notes`,
src/app.py lines 167-178). -/
structure AnnotationRecord where
  id : String
  noteAt : Option ℚ
  description : Cell
  agent : String
  deriving DecidableEq, Repr

/-- One iteration of the `map_notes` loop: outer `none` is the uncaught
`AttributeError` from `.strip()` on a non-string truthy agent cell;
`some none` is a dropped row (NA identifier); `some (some rec)` is a kept
record. -/
def note_of_row (parse : String → Option ℚ) (r : Row) :
    Option (Option AnnotationRecord) :=
  let idv := pick r NOTES_ID_ALIASES
  if isna idv then some none
  else
    match strip_cell (py_or (pick r (NOTES_COL_ALIASES "agent")) (.str "")) with
    | none => none
    | some ag =>
      some (some
        { id := pyStrip (pyStrOpt idv)
          noteAt := to_dt parse (pick r (NOTES_COL_ALIASES "noteAt"))
          description := py_or (pick r (NOTES_COL_ALIASES "description")) (.str "")
          agent := ag })

/-- `map_notes` (src/app.py lines 167-178); `none` when some row raises. -/
def map_notes (parse : String → Option ℚ) : List Row → Option (List AnnotationRecord)
  | [] => some []
  | r :: rs =>
    match note_of_row parse r with
    | none => none
    | some none => map_notes parse rs
    | some (some rec) => (map_notes parse rs).map (rec :: ·)

/-- `_nz_agent` (src/app.py lines 282-284): substitute `"Unknown"` for a
blank agent string, used only in the agent-level metrics grouping. -/
def _nz_agent (x : String) : String :=
  let x := pyStrip x
  if x.data.isEmpty then "Unknown" else x

/-- A loaded table: its column labels and its data rows. -/
structure Table where
  cols : List String
  rows : List Row
  deriving DecidableEq, Repr

/-- The validation used by `load_with_header_auto` for one table kind. -/
def table_valid (is_orders : Bool) (df : Table) : List String :=
  if is_orders then validate_orders_columns df.cols else validate_notes_columns df.cols

/-- One candidate attempt of `load_with_header_auto`: read with the given
header index and accept only a fully-validating table. -/
def try_header (read : ℕ → Option Table) (is_orders : Bool) (idx : ℕ) :
    Option Table :=
  (read idx).bind (fun df => if (table_valid is_orders df).isEmpty then some df else none)

/-- `load_with_header_auto` (src/app.py lines 180-199) over an abstract
reader `read idx` (the `pd.read_excel(..., header=idx)` wrapped in
`_read`'s try/except, `none` on failure): the preferred index first, then
indices 0..30, accepting the first fully-validating table; otherwise the
fallback re-read at `preferred or 0`. -/
def load_with_header_auto (read : ℕ → Option Table) (preferred : Option ℕ)
    (is_orders : Bool) : Option Table :=
  match preferred.bind (try_header read is_orders) with
  | some df => some df
  | none =>
    match (List.range 31).findSome? (try_header read is_orders) with
    | some df => some df
    | none => read (preferred.getD 0)

/-! ## Correlation and report rows -/

/-- Ordering of `notes.sort_values("noteAt", na_position="first")`: missing
times first, then ascending `noteAt` (tie order among equal keys is not
observable by any property below). -/
def noteLE (a b : AnnotationRecord) : Bool :=
  match a.noteAt, b.noteAt with
  | none, _ => true
  | some _, none => false
  | some x, some y => decide (x ≤ y)

/-- One enriched order (the dict appended in the loop at
src/app.py lines 229-243): its stages, first breach, and the time-sorted
notes sharing its identifier (`notes_by_id.get_group`). -/
structure Enriched where
  id : String
  stages : List StageResult
  first_breach : Option StageResult
  earliest_breach_time : Option ℚ
  notes : List AnnotationRecord
  deriving Repr

/-- Build the enriched entry for one order from the already-sorted note
list (src/app.py lines 229-243). -/
def enrich (sortedNotes : List AnnotationRecord) (o : OrderRecord) : Enriched :=
  match compute_breaches o with
  | (stages, fb, ebt) =>
    { id := o.id
      stages := stages
      first_breach := fb
      earliest_breach_time := ebt
      notes := sortedNotes.filter (fun n => n.id == o.id) }

/-- The within-5/after-5 flags of the inner note loop (src/app.py lines
362-368): both stay at the "—" sentinel (`false`) unless the stage is
breached and both instants resolve. -/
def note_flags (breached_flag : Bool) (tat_time note_time : Option ℚ) :
    Bool × Bool :=
  match tat_time, note_time with
  | some t, some n =>
    if breached_flag then
      if t ≤ n ∧ n ≤ t + BREACH_NOTE_GRACE_MIN * 60 then (true, false)
      else if t + BREACH_NOTE_GRACE_MIN * 60 < n then (false, true)
      else (false, false)
    else (false, false)
  | _, _ => (false, false)

/-- `fmt_td_gap` (src/app.py lines 302-313) abstracted to the signed gap in
seconds it renders as `mm:ss`; `none` is the "—" sentinel. -/
def fmt_td_gap (breach_time note_time : Option ℚ) : Option ℚ :=
  match breach_time, note_time with
  | some t, some n => some (n - t)
  | _, _ => none

/-- One output row (the dicts appended at src/app.py lines 315-381), with
formatted timestamps abstracted to their values (`none` renders "—"). -/
structure ReportRow where
  orderId : String
  tatBreached : String
  stageLabel : String
  tatTime : Option ℚ
  noteTime : Option ℚ
  agent : String
  desc : String
  within5 : String
  after5 : String
  gap : Option ℚ
  deriving DecidableEq, Repr

/-- The placeholder row for an order with no stage having a present
`segmentEnd` (src/app.py lines 320-332). -/
def placeholder_row (oid : String) : ReportRow :=
  { orderId := oid, tatBreached := "—", stageLabel := "—", tatTime := none,
    noteTime := none, agent := "—", desc := "—", within5 := "—",
    after5 := "—", gap := none }

/-- The per-stage row emitted when the order has no notes
(src/app.py lines 343-355). -/
def stage_row (oid : String) (stage : StageResult) : ReportRow :=
  { orderId := oid
    tatBreached := if stage.breached then "🟢 Yes" else "🔴 No"
    stageLabel := STAGE_LABELS stage.key
    tatTime := stage.segmentEnd
    noteTime := none, agent := "—", desc := "—", within5 := "—",
    after5 := "—", gap := none }

/-- The per-(stage, note) row (src/app.py lines 357-381). -/
def note_row (oid : String) (stage : StageResult) (n : AnnotationRecord) :
    ReportRow :=
  let flags := note_flags stage.breached stage.segmentEnd n.noteAt
  { orderId := oid
    tatBreached := if stage.breached then "🟢 Yes" else "🔴 No"
    stageLabel := STAGE_LABELS stage.key
    tatTime := stage.segmentEnd
    noteTime := n.noteAt
    agent := if n.agent.data.isEmpty then "—" else n.agent
    desc := if truthy n.description then pyStr n.description else "—"
    within5 := if flags.1 then "🟢 Yes" else "—"
    after5 := if flags.2 then "🔴 Yes" else "—"
    gap := fmt_td_gap stage.segmentEnd n.noteAt }

/-- The rows the output loop emits for one enriched order
(src/app.py lines 315-381).  Note the filter keeps every stage whose
`segmentEnd` is present, breached or not. -/
def out_rows_for (er : Enriched) : List ReportRow :=
  let breached_stages := er.stages.filter (fun s => s.segmentEnd.isSome)
  if breached_stages.isEmpty then [placeholder_row er.id]
  else
    breached_stages.flatMap (fun stage =>
      if er.notes.isEmpty then [stage_row er.id stage]
      else er.notes.map (fun n => note_row er.id stage n))

/-- All output rows, in order (src/app.py lines 315-383). -/
def out_rows (ers : List Enriched) : List ReportRow :=
  ers.flatMap out_rows_for

/-- The whole script after upload (src/app.py lines 211-383): load both
workbooks with header auto-detection, re-validate, stop with the missing
column lists if any (`st.error` + `st.stop`), otherwise map, sort, group,
enrich and emit the report rows.  The outer `none` covers the runs the
script aborts with an uncaught exception (a fallback read that fails, or
`map_notes` raising on a non-string agent cell). -/
def run_report (read_orders read_notes : ℕ → Option Table)
    (parse : String → Option ℚ) :
    Option (Except (List String × List String) (List ReportRow)) :=
  match load_with_header_auto read_orders (some 11) true,
        load_with_header_auto read_notes (some 0) false with
  | some odf, some ndf =>
    let miss_orders := validate_orders_columns odf.cols
    let miss_notes := validate_notes_columns ndf.cols
    if miss_orders.isEmpty && miss_notes.isEmpty then
      match map_notes parse ndf.rows with
      | none => none
      | some ns =>
        let sorted := ns.mergeSort noteLE
        some (.ok (out_rows ((map_orders parse odf.rows).map (enrich sorted))))
    else some (.error (miss_orders, miss_notes))
  | _, _ => none

/-! ## Shared lemmas -/

/-- A stage is breached exactly when its duration resolved and strictly
exceeds its threshold. -/
theorem add_stage_breached_iff (k : StageKey) (a b : Option ℚ) :
    (add_stage k a b).breached = true ↔
      ∃ d : ℚ, diff_min a b = some d ∧ (THRESHOLDS k : ℚ) < d := by
  rcases h : diff_min a b with _ | d <;> simp [add_stage, h]

/-- A breached stage has both a resolved duration and a present end. -/
theorem add_stage_breached_present (k : StageKey) (a b : Option ℚ)
    (h : (add_stage k a b).breached = true) :
    b.isSome = true ∧ (diff_min a b).isSome = true := by
  rcases a with _ | x <;> rcases b with _ | y <;>
    simp [add_stage, diff_min] at h ⊢

/-- Membership in the five-stage list, unpacked. -/
theorem mem_stages_of {o : OrderRecord} {s : StageResult}
    (hs : s ∈ stages_of o) :
    s = add_stage .created_to_placed o.createdOn o.placedAt ∨
    s = add_stage .placed_to_accepted o.placedAt o.acceptedAt ∨
    s = add_stage .accepted_to_in_kitchen o.acceptedAt o.readyAt ∨
    s = add_stage .in_kitchen_to_ready o.acceptedAt o.readyAt ∨
    s = add_stage .ready_to_shipped o.readyAt o.shippedAt := by
  simpa [stages_of] using hs

/-- The end of a built stage is its end argument. -/
theorem add_stage_segmentEnd (k : StageKey) (a b : Option ℚ) :
    (add_stage k a b).segmentEnd = b := rfl

/-- The key of a built stage is its key argument. -/
theorem add_stage_key (k : StageKey) (a b : Option ℚ) :
    (add_stage k a b).key = k := rfl

/-- The segment-end comparison is transitive. -/
theorem endLE_trans : ∀ a b c : StageResult,
    endLE a b = true → endLE b c = true → endLE a c = true := by
  intro a b c hab hbc
  simp only [endLE, decide_eq_true_eq] at *
  exact le_trans hab hbc

/-- The segment-end comparison is total. -/
theorem endLE_total : ∀ a b : StageResult, (endLE a b || endLE b a) = true := by
  intro a b
  simp only [endLE, Bool.or_eq_true, decide_eq_true_eq]
  exact le_total _ _

/-- The five stages carry the five distinct keys, in order. -/
theorem stages_of_map_key (o : OrderRecord) :
    (stages_of o).map (fun s => s.key) = STAGE_ORDER := rfl

/-- The breached-stage list never holds two equal stage results (their keys
already differ). -/
theorem breached_list_nodup (o : OrderRecord) : (breached_list o).Nodup := by
  have h1 : ((stages_of o).map (fun s => s.key)).Nodup := by
    rw [stages_of_map_key]
    decide
  have h2 : (breached_list o).Sublist (stages_of o) := List.filter_sublist _
  have h3 : ((breached_list o).map (fun s => s.key)).Nodup :=
    (h2.map _).nodup h1
  exact h3.of_map _

/-! ## Claim theorems -/

/-- C1: among the five stages of an order, those with `breached` true and a
present `segmentEnd` are considered; `firstBreach` is the one with the
numerically earliest `segmentEnd`, ties broken by stage definition order
(any distinct tying stage listed before it is impossible), and it is
`none` exactly when no such stage exists; with exactly two such stages at
T1 < T2 the first breach is the T1 stage. -/
theorem c1_first_breach_selection (o : OrderRecord) :
    ((compute_breaches o).1 = stages_of o) ∧
    (breached_list o = [] →
      (compute_breaches o).2.1 = none ∧ (compute_breaches o).2.2 = none) ∧
    (∀ b, (compute_breaches o).2.1 = some b →
      b ∈ breached_list o ∧
      (compute_breaches o).2.2 = b.segmentEnd ∧
      (∀ s ∈ breached_list o, endVal b ≤ endVal s) ∧
      (∀ l1 s l2, breached_list o = l1 ++ s :: l2 → endVal s = endVal b →
        s ≠ b → b ∈ l1)) ∧
    (breached_list o ≠ [] → ∃ b, (compute_breaches o).2.1 = some b) ∧
    (∀ s t, breached_list o = [s, t] → endVal s < endVal t →
      (compute_breaches o).2.1 = some s ∧
      (compute_breaches o).2.2 = s.segmentEnd) := by
  rcases hsort : (breached_list o).mergeSort endLE with _ | ⟨b, tail⟩
  · have hB : breached_list o = [] := by
      have hp := List.mergeSort_perm (breached_list o) endLE
      rw [hsort] at hp
      exact (hp.symm).eq_nil
    refine ⟨by simp [compute_breaches, hsort],
            fun _ => ⟨by simp [compute_breaches, hsort],
                      by simp [compute_breaches, hsort]⟩,
            ?_, ?_, ?_⟩
    · intro b hb
      simp [compute_breaches, hsort] at hb
    · intro hne
      exact absurd hB hne
    · intro s t hst
      rw [hB] at hst
      simp at hst
  · have hperm : (b :: tail).Perm (breached_list o) := by
      rw [← hsort]
      exact List.mergeSort_perm _ _
    have hb_mem : b ∈ breached_list o := hperm.mem_iff.mp (by simp)
    have hpair : List.Pairwise (fun x y => endLE x y = true) (b :: tail) := by
      rw [← hsort]
      exact List.sorted_mergeSort endLE_trans endLE_total _
    have hmin : ∀ s ∈ breached_list o, endVal b ≤ endVal s := by
      intro s hsB
      have hs2 : s ∈ b :: tail := hperm.mem_iff.mpr hsB
      rcases List.mem_cons.mp hs2 with h | h
      · subst h
        exact le_refl _
      · have := (List.pairwise_cons.mp hpair).1 s h
        simpa [endLE] using this
    have hnotail : b ∉ tail := by
      have hnd : (b :: tail).Nodup := (hperm.nodup_iff).mpr (breached_list_nodup o)
      exact (List.nodup_cons.mp hnd).1
    have hcb : compute_breaches o = (stages_of o, some b, b.segmentEnd) := by
      simp [compute_breaches, hsort]
    have htie : ∀ l1 s l2, breached_list o = l1 ++ s :: l2 →
        endVal s = endVal b → s ≠ b → b ∈ l1 := by
      intro l1 s l2 hB hend hne
      by_contra hbl1
      have hb_in : b ∈ s :: l2 := by
        have hmem : b ∈ l1 ++ s :: l2 := hB ▸ hb_mem
        rcases List.mem_append.mp hmem with h | h
        · exact absurd h hbl1
        · exact h
      have hb_l2 : b ∈ l2 := by
        rcases List.mem_cons.mp hb_in with h | h
        · exact absurd h.symm hne
        · exact h
      have hsub : [s, b].Sublist (breached_list o) := by
        rw [hB]
        exact List.Sublist.trans
          (List.Sublist.cons₂ s (List.singleton_sublist.mpr hb_l2))
          (List.sublist_append_right l1 (s :: l2))
      have hle : endLE s b = true := by
        simp [endLE, hend]
      have hps := List.pair_sublist_mergeSort endLE_trans endLE_total hle hsub
      rw [hsort] at hps
      cases hps with
      | cons _ h' => exact hnotail (h'.subset (by simp))
      | cons₂ _ h' => exact hne rfl
    refine ⟨by simp [hcb], ?_, ?_, ?_, ?_⟩
    · intro h0
      exact absurd (h0 ▸ hb_mem) (List.not_mem_nil b)
    · intro b' hb'
      have hb'b : b' = b := by
        rw [hcb] at hb'
        simpa using hb'.symm
      subst hb'b
      exact ⟨hb_mem, by simp [hcb], hmin, htie⟩
    · intro _
      exact ⟨b, by simp [hcb]⟩
    · intro s t hB hlt
      have hb2 : b ∈ [s, t] := hB ▸ hb_mem
      have hmin_s : endVal b ≤ endVal s := hmin s (by rw [hB]; simp)
      rcases List.mem_cons.mp hb2 with h | h
      · subst h
        exact ⟨by simp [hcb], by simp [hcb]⟩
      · have hbt : b = t := by simpa using h
        subst hbt
        exact absurd hmin_s (not_le.mpr hlt)

/-- C5: for a breached stage with both instants resolved, within-grace holds
iff `segmentEnd ≤ noteAt ≤ segmentEnd + 5 minutes`, after-grace iff
`noteAt > segmentEnd + 5 minutes`, never both; both flags stay unset
exactly when the note precedes the breach, and always when the flag is
down or either instant is absent. -/
theorem c5_grace_partition (t n : ℚ) (b : Bool) (tt nn : Option ℚ) :
    ((note_flags true (some t) (some n)).1 = true ↔
      t ≤ n ∧ n ≤ t + BREACH_NOTE_GRACE_MIN * 60) ∧
    ((note_flags true (some t) (some n)).2 = true ↔
      t + BREACH_NOTE_GRACE_MIN * 60 < n) ∧
    ¬((note_flags true (some t) (some n)).1 = true ∧
      (note_flags true (some t) (some n)).2 = true) ∧
    (note_flags true (some t) (some n) = (false, false) ↔ n < t) ∧
    note_flags false tt nn = (false, false) ∧
    note_flags b none nn = (false, false) ∧
    note_flags b tt none = (false, false) := by
  have hg : (0 : ℚ) ≤ BREACH_NOTE_GRACE_MIN * 60 := by
    norm_num [BREACH_NOTE_GRACE_MIN]
  have key : note_flags true (some t) (some n) =
      if t ≤ n ∧ n ≤ t + BREACH_NOTE_GRACE_MIN * 60 then ((true : Bool), (false : Bool))
      else if t + BREACH_NOTE_GRACE_MIN * 60 < n then (false, true)
      else (false, false) := rfl
  refine ⟨?_, ?_, ?_, ?_, ?_, ?_, ?_⟩
  · rw [key]
    split_ifs with h1 h2
    · exact iff_of_true rfl h1
    · exact iff_of_false (by simp) h1
    · exact iff_of_false (by simp) h1
  · rw [key]
    split_ifs with h1 h2
    · exact iff_of_false (by simp) (not_lt.mpr h1.2)
    · exact iff_of_true rfl h2
    · exact iff_of_false (by simp) h2
  · rw [key]
    split_ifs <;> simp
  · rw [key]
    split_ifs with h1 h2
    · exact iff_of_false (by simp) (not_lt.mpr h1.1)
    · refine iff_of_false (by simp) (not_lt.mpr ?_)
      exact le_of_lt (lt_of_le_of_lt (le_add_of_nonneg_right hg) h2)
    · refine iff_of_true rfl ?_
      push_neg at h1 h2
      rcases lt_or_ge n t with h | h
      · exact h
      · exact absurd (h1 h) (not_lt.mpr h2)
  · rcases tt with _ | x <;> rcases nn with _ | y <;> rfl
  · rcases nn with _ | y <;> rfl
  · rcases tt with _ | x <;> rfl

/-- Witness for C5: a note 100 seconds after a breach at time 0 is
within grace. -/
theorem c5_witness : (note_flags true (some 0) (some 100)).1 = true :=
  (c5_grace_partition 0 100 true none none).1.mpr
    (by norm_num [BREACH_NOTE_GRACE_MIN])

/-- The single stage of the non-breached sample order that has a present
end, with the row the loop emits for it fully evaluated. -/
theorem sample_no_breach_stage1 :
    (add_stage .created_to_placed (some 0) (some 60)).breached = false := by
  simp [add_stage, diff_min, THRESHOLDS, decide_eq_false_iff_not]

/-- The non-breached sample order has an empty breached list. -/
theorem sample_no_breach_breached_list :
    breached_list ⟨"X", some 0, some 60, none, none, none⟩ = [] := by
  have hb2 : (add_stage .placed_to_accepted (some 60) (none : Option ℚ)).breached = false := rfl
  have hb3 : (add_stage .accepted_to_in_kitchen (none : Option ℚ) none).breached = false := rfl
  have hb4 : (add_stage .in_kitchen_to_ready (none : Option ℚ) none).breached = false := rfl
  have hb5 : (add_stage .ready_to_shipped (none : Option ℚ) none).breached = false := rfl
  simp [breached_list, stages_of, List.filter, sample_no_breach_stage1,
        hb2, hb3, hb4, hb5]

/-- The enriched entry of the non-breached sample order, evaluated. -/
theorem sample_no_breach_enrich :
    enrich [] ⟨"X", some 0, some 60, none, none, none⟩ =
      { id := "X"
        stages := stages_of ⟨"X", some 0, some 60, none, none, none⟩
        first_breach := none
        earliest_breach_time := none
        notes := [] } := by
  simp [enrich, compute_breaches, sample_no_breach_breached_list,
        List.mergeSort_nil]

/-- The stage filter of the output loop keeps exactly the first stage of
the non-breached sample order. -/
theorem sample_no_breach_filter :
    (stages_of ⟨"X", some 0, some 60, none, none, none⟩).filter
        (fun s => s.segmentEnd.isSome) =
      [add_stage .created_to_placed (some 0) (some 60)] := by
  simp [stages_of, List.filter, add_stage_segmentEnd]

/-- C6 counterexample: an order whose only resolvable-end stage is not
breached has no breached stage at all, yet the report emits one
non-placeholder row for it (flagged "🔴 No") instead of the placeholder
row the claim requires. -/
theorem c6_counterexample :
    (stages_of ⟨"X", some 0, some 60, none, none, none⟩).filter
        (fun s => s.breached) = [] ∧
    out_rows_for (enrich [] ⟨"X", some 0, some 60, none, none, none⟩) =
      [{ orderId := "X", tatBreached := "🔴 No", stageLabel := "Created → Placed",
         tatTime := some 60, noteTime := none, agent := "—", desc := "—",
         within5 := "—", after5 := "—", gap := none }] ∧
    ({ orderId := "X", tatBreached := "🔴 No", stageLabel := "Created → Placed",
       tatTime := some 60, noteTime := none, agent := "—", desc := "—",
       within5 := "—", after5 := "—", gap := none } : ReportRow) ≠
      placeholder_row "X" := by
  have hb2 : (add_stage .placed_to_accepted (some 60) (none : Option ℚ)).breached = false := rfl
  have hb3 : (add_stage .accepted_to_in_kitchen (none : Option ℚ) none).breached = false := rfl
  have hb4 : (add_stage .in_kitchen_to_ready (none : Option ℚ) none).breached = false := rfl
  have hb5 : (add_stage .ready_to_shipped (none : Option ℚ) none).breached = false := rfl
  refine ⟨?_, ?_, ?_⟩
  · simp [stages_of, List.filter, sample_no_breach_stage1, hb2, hb3, hb4, hb5]
  · rw [sample_no_breach_enrich]
    simp only [out_rows_for, sample_no_breach_filter]
    simp [stage_row, sample_no_breach_stage1, add_stage_segmentEnd,
          add_stage_key, STAGE_LABELS]
  · intro h
    have := congrArg ReportRow.tatBreached h
    simp [placeholder_row] at this

/-- Helper: the length of a `flatMap` whose pieces all have length `c`. -/
theorem length_flatMap_const {α β : Type} (l : List α) (f : α → List β) (c : ℕ)
    (h : ∀ a ∈ l, (f a).length = c) : (l.flatMap f).length = l.length * c := by
  induction l with
  | nil => simp
  | cons a as ih =>
    simp only [List.flatMap_cons, List.length_append, List.length_cons,
               h a (by simp), ih (fun x hx => h x (by simp [hx])),
               Nat.succ_mul]
    omega

/-- C6 amended: the report emits one row per (order, stage with a present
`segmentEnd`, annotation); an order with no annotations still gets one
row per such stage; and exactly one placeholder row appears when no stage
has a present `segmentEnd` (breached or not is irrelevant to row
multiplicity). -/
theorem c6_rows_per_resolvable_stage (er : Enriched) :
    (er.stages.filter (fun s => s.segmentEnd.isSome) = [] →
      out_rows_for er = [placeholder_row er.id]) ∧
    (er.stages.filter (fun s => s.segmentEnd.isSome) ≠ [] →
      (out_rows_for er).length =
        (er.stages.filter (fun s => s.segmentEnd.isSome)).length *
          max 1 er.notes.length) ∧
    (∀ r ∈ out_rows_for er, r.orderId = er.id) := by
  refine ⟨?_, ?_, ?_⟩
  · intro h
    simp only [out_rows_for, h, List.isEmpty_nil, if_true]
  · intro h
    have hne : (er.stages.filter (fun s => s.segmentEnd.isSome)).isEmpty = false := by
      simpa [List.isEmpty_iff] using h
    simp only [out_rows_for, hne, Bool.false_eq_true, if_false]
    refine length_flatMap_const _ _ _ ?_
    intro stage _
    by_cases hn : er.notes = []
    · simp [hn]
    · have hpos : 0 < er.notes.length := List.length_pos.mpr hn
      have hne2 : er.notes.isEmpty = false := by
        simpa [List.isEmpty_iff] using hn
      simp [hne2, Nat.max_eq_right hpos]
  · intro r hr
    by_cases h : (er.stages.filter (fun s => s.segmentEnd.isSome)).isEmpty
    · simp only [out_rows_for, h, if_true] at hr
      simp only [List.mem_singleton] at hr
      simp [hr, placeholder_row]
    · simp only [out_rows_for, h, Bool.false_eq_true, if_false,
                 List.mem_flatMap] at hr
      obtain ⟨stage, _, hrr⟩ := hr
      by_cases hn : er.notes.isEmpty
      · simp only [hn, if_true, List.mem_singleton] at hrr
        simp [hrr, stage_row]
      · simp only [hn, Bool.false_eq_true, if_false, List.mem_map] at hrr
        obtain ⟨nt, _, hr2⟩ := hrr
        simp [← hr2, note_row]

/-- Witness for C6's amended theorem: the sample order has one
resolvable-end stage and no notes, so exactly one row. -/
theorem c6_witness :
    (out_rows_for (enrich [] ⟨"X", some 0, some 60, none, none, none⟩)).length = 1 := by
  have hne : (enrich [] ⟨"X", some 0, some 60, none, none, none⟩).stages.filter
      (fun s => s.segmentEnd.isSome) ≠ [] := by
    simp [sample_no_breach_enrich, sample_no_breach_filter]
  have h := (c6_rows_per_resolvable_stage
    (enrich [] ⟨"X", some 0, some 60, none, none, none⟩)).2.1 hne
  rw [h]
  simp [sample_no_breach_enrich, sample_no_breach_filter]

/-- C7 counterexample: a row whose identifier cell is the empty string is
not NA, so it is kept and yields an order record with an empty
identifier, contradicting both the claimed drop of empty cells and the
claimed non-empty guarantee. -/
theorem c7_counterexample :
    (map_orders (fun _ => none) [[("Order ID", Cell.str "")]]).map
      (fun rec => rec.id) = [""] := by
  decide

/-- C7 amended: the Row Mapper drops exactly the rows whose identifier
lookup is NA (`None`/`NaN`/`NaT`); every kept record's identifier is the
Python `str()` of the cell stripped of surrounding whitespace, which can
be empty when the cell held a blank string; no error is raised (the
mapper is total). -/
theorem c7_rows_dropped_iff_na (parse : String → Option ℚ) (rows : List Row) :
    ((map_orders parse rows).length =
      (rows.filter (fun r => !(isna (pick r ORDER_ID_ALIASES)))).length) ∧
    (∀ rec ∈ map_orders parse rows, ∃ r ∈ rows,
      isna (pick r ORDER_ID_ALIASES) = false ∧
      rec.id = pyStrip (pyStrOpt (pick r ORDER_ID_ALIASES))) := by
  induction rows with
  | nil => exact ⟨rfl, by simp [map_orders]⟩
  | cons r rs ih =>
    by_cases h : isna (pick r ORDER_ID_ALIASES) = true
    · refine ⟨?_, ?_⟩
      · simp [map_orders, h, List.filter_cons, ih.1]
      · intro rec hrec
        simp only [map_orders, h, if_true] at hrec
        obtain ⟨r', hr', hna, hid⟩ := ih.2 rec hrec
        exact ⟨r', List.mem_cons_of_mem _ hr', hna, hid⟩
    · have h' : isna (pick r ORDER_ID_ALIASES) = false := by
        simpa using h
      refine ⟨?_, ?_⟩
      · simp [map_orders, h', List.filter_cons, ih.1]
      · intro rec hrec
        simp only [map_orders, h', Bool.false_eq_true, if_false,
                   List.mem_cons] at hrec
        rcases hrec with rfl | hrec
        · exact ⟨r, List.mem_cons_self _ _, h', rfl⟩
        · obtain ⟨r', hr', hna, hid⟩ := ih.2 rec hrec
          exact ⟨r', List.mem_cons_of_mem _ hr', hna, hid⟩

/-- Witness for C7's amended theorem: of two rows, the NA-identifier row is
dropped and the other kept. -/
theorem c7_witness :
    (map_orders (fun _ => none)
      [[("Order ID", Cell.str " A1 ")], [("Order ID", Cell.nan)]]).length = 1 := by
  have h := (c7_rows_dropped_iff_na (fun _ => none)
    [[("Order ID", Cell.str " A1 ")], [("Order ID", Cell.nan)]]).1
  rw [h]
  decide

/-- C9 counterexample: a note row whose agent column is absent yields an
annotation record with agent `""`, not `"Unknown"`. -/
theorem c9_counterexample :
    (map_notes (fun _ => none)
        [[("Network order ID", Cell.str "A1"), ("Created at", Cell.time 100)]]).map
      (fun l => l.map (fun n => n.agent)) = some [""] ∧
    ("" : String) ≠ "Unknown" := by
  exact ⟨by decide, by decide⟩

/-- C9 amended: for a kept note row whose agent cell is absent, unresolved,
or a blank string, `map_notes` records the empty string as the agent; the
`"Unknown"` default is applied only by the agent-metrics helper
`_nz_agent`. -/
theorem c9_agent_empty_default (parse : String → Option ℚ) (r : Row)
    (rec : AnnotationRecord) (h : note_of_row parse r = some (some rec))
    (hblank : pick r (NOTES_COL_ALIASES "agent") = none ∨
      ∃ s, pick r (NOTES_COL_ALIASES "agent") = some (Cell.str s) ∧
        pyStrip s = "") :
    rec.agent = "" ∧ _nz_agent rec.agent = "Unknown" := by
  have key : ∀ ag, strip_cell (py_or (pick r (NOTES_COL_ALIASES "agent")) (.str "")) =
      some ag → rec.agent = ag := by
    intro ag hag
    simp only [note_of_row, hag] at h
    by_cases hna : isna (pick r NOTES_ID_ALIASES) = true
    · simp [hna] at h
    · have hf : isna (pick r NOTES_ID_ALIASES) = false := by simpa using hna
      simp only [hf, Bool.false_eq_true, if_false, Option.some.injEq] at h
      rw [← h]
  have hag : rec.agent = "" := by
    rcases hblank with hb | ⟨s, hb, hstrip⟩
    · apply key
      rw [hb]
      decide
    · by_cases hs : s.data.isEmpty = true
      · apply key
        rw [hb]
        simp [py_or, truthy, hs, strip_cell]
        decide
      · have hs' : s.data.isEmpty = false := by simpa using hs
        apply key
        rw [hb]
        simp [py_or, truthy, hs', strip_cell, hstrip]
  exact ⟨hag, by rw [hag]; decide⟩

/-- Witness for C9's amended theorem at a concrete note row with no agent
column. -/
theorem c9_witness :
    (⟨"A1", some 100, Cell.str "", ""⟩ : AnnotationRecord).agent = "" ∧
    _nz_agent (⟨"A1", some 100, Cell.str "", ""⟩ : AnnotationRecord).agent =
      "Unknown" :=
  c9_agent_empty_default (fun _ => none)
    [("Network order ID", Cell.str "A1"), ("Created at", Cell.time 100)]
    ⟨"A1", some 100, Cell.str "", ""⟩ (by decide) (Or.inl (by decide))

/-- C8: when no candidate header row (the preferred one, then 0..30) makes
every required order column resolve, the run surfaces the missing-field
list of the fallback table as an explicit error — it is nonempty — and
produces no report rows. -/
theorem c8_schema_unresolved_reported (read_o read_n : ℕ → Option Table)
    (parse : String → Option ℚ) (t nt : Table)
    (hfail : ∀ idx df, read_o idx = some df →
      validate_orders_columns df.cols ≠ [])
    (hfb : read_o 11 = some t)
    (hn : load_with_header_auto read_n (some 0) false = some nt) :
    run_report read_o read_n parse =
      some (.error (validate_orders_columns t.cols,
                    validate_notes_columns nt.cols)) ∧
    validate_orders_columns t.cols ≠ [] := by
  have htry : ∀ idx, try_header read_o true idx = none := by
    intro idx
    rcases hr : read_o idx with _ | df
    · simp [try_header, hr]
    · have hne := hfail idx df hr
      have hf : (validate_orders_columns df.cols).isEmpty = false := by
        simpa [List.isEmpty_iff] using hne
      simp [try_header, hr, table_valid, hf]
      exact hne
  have hload : load_with_header_auto read_o (some 11) true = some t := by
    have h11 : Option.bind (some 11) (try_header read_o true) = none := htry 11
    have hrange : (List.range 31).findSome? (try_header read_o true) = none :=
      List.findSome?_eq_none_iff.mpr (fun x _ => htry x)
    simp only [load_with_header_auto, h11, hrange]
    simpa using hfb
  have hmo : (validate_orders_columns t.cols).isEmpty = false := by
    simpa [List.isEmpty_iff] using hfail 11 t hfb
  refine ⟨?_, by simpa [List.isEmpty_iff] using hmo⟩
  simp [run_report, hload, hn, hmo]

/-- Witness for C8: an orders workbook exposing only a column `Foo` at
every header index fails schema validation everywhere and the run errors
out with its missing-field list. -/
theorem c8_witness :
    run_report (fun _ => some ⟨["Foo"], []⟩)
      (fun _ => some ⟨["Network order ID", "Created at"], []⟩) (fun _ => none) =
      some (.error (validate_orders_columns ["Foo"],
                    validate_notes_columns ["Network order ID", "Created at"])) ∧
    validate_orders_columns ["Foo"] ≠ [] :=
  c8_schema_unresolved_reported (fun _ => some ⟨["Foo"], []⟩)
    (fun _ => some ⟨["Network order ID", "Created at"], []⟩) (fun _ => none)
    ⟨["Foo"], []⟩ ⟨["Network order ID", "Created at"], []⟩
    (fun idx df h => by
      injection h with h
      rw [← h]
      decide)
    rfl (by decide)

/-- Witness for C1: two breached stages ending at 600 and 1200 seconds; the
first breach is the one ending at 600. -/
theorem c1_witness :
    (compute_breaches ⟨"w", some 0, some 600, some 1200, none, none⟩).2.1 =
      some (add_stage .created_to_placed (some 0) (some 600)) ∧
    (compute_breaches ⟨"w", some 0, some 600, some 1200, none, none⟩).2.2 =
      (add_stage .created_to_placed (some 0) (some 600)).segmentEnd := by
  have hb1 : (add_stage .created_to_placed (some 0) (some 600)).breached = true := by
    simp [add_stage, diff_min, THRESHOLDS]
    norm_num
  have hb2 : (add_stage .placed_to_accepted (some 600) (some 1200)).breached = true := by
    simp [add_stage, diff_min, THRESHOLDS]
    norm_num
  have hB : breached_list ⟨"w", some 0, some 600, some 1200, none, none⟩ =
      [add_stage .created_to_placed (some 0) (some 600),
       add_stage .placed_to_accepted (some 600) (some 1200)] := by
    simp [breached_list, stages_of, List.filter, hb1, hb2, add_stage_segmentEnd]
  exact (c1_first_breach_selection _).2.2.2.2 _ _ hB
    (by simp [endVal, add_stage_segmentEnd]; norm_num)

/-- C2: for every order and every one of the five stages, `breached` is true
iff the duration is non-null and strictly greater than the threshold; a
duration equal to the threshold is never a breach, and a null duration is
never a breach. -/
theorem c2_breached_iff_strictly_over (o : OrderRecord) (s : StageResult)
    (hs : s ∈ stages_of o) :
    (s.breached = true ↔ ∃ d : ℚ, s.duration = some d ∧ (s.threshold : ℚ) < d) ∧
    (s.duration = some ((s.threshold : ℚ)) → s.breached = false) ∧
    (s.duration = none → s.breached = false) := by
  have main : ∀ (k : StageKey) (a b : Option ℚ),
      ((add_stage k a b).breached = true ↔
        ∃ d : ℚ, (add_stage k a b).duration = some d ∧
          (((add_stage k a b).threshold : ℚ)) < d) ∧
      ((add_stage k a b).duration = some (((add_stage k a b).threshold : ℚ)) →
        (add_stage k a b).breached = false) ∧
      ((add_stage k a b).duration = none → (add_stage k a b).breached = false) := by
    intro k a b
    rcases h : diff_min a b with _ | d
    · simp [add_stage, h]
    · simp [add_stage, h]
      exact fun h' => le_of_eq h'
  rcases mem_stages_of hs with h | h | h | h | h <;> subst h <;>
    exact main _ _ _

/-- Witness for C2 at a concrete breached stage (duration 10 over
threshold 5). -/
theorem c2_witness :
    ((add_stage .created_to_placed (some 0) (some 600)).breached = true ↔
      ∃ d : ℚ, (add_stage .created_to_placed (some 0) (some 600)).duration = some d ∧
        (((add_stage .created_to_placed (some 0) (some 600)).threshold : ℚ)) < d) ∧
    ((add_stage .created_to_placed (some 0) (some 600)).duration =
        some (((add_stage .created_to_placed (some 0) (some 600)).threshold : ℚ)) →
      (add_stage .created_to_placed (some 0) (some 600)).breached = false) ∧
    ((add_stage .created_to_placed (some 0) (some 600)).duration = none →
      (add_stage .created_to_placed (some 0) (some 600)).breached = false) :=
  c2_breached_iff_strictly_over ⟨"w", some 0, some 600, none, none, none⟩ _
    (by simp [stages_of])

/-- C3: the stage duration is null exactly when an endpoint is absent,
otherwise `(end - start)/60` seconds clamped below at 0, hence never
negative. -/
theorem c3_duration_clamped_nonneg (a b : Option ℚ) :
    (diff_min a b = none ↔ a = none ∨ b = none) ∧
    (∀ x y : ℚ, a = some x → b = some y →
      diff_min a b = some (max 0 ((y - x) / 60))) ∧
    (∀ q : ℚ, diff_min a b = some q → 0 ≤ q) := by
  rcases a with _ | x <;> rcases b with _ | y <;> simp [diff_min]

/-- Witness for C3: end before start clamps to a zero duration. -/
theorem c3_witness : diff_min (some 100) (some 40) = some 0 := by
  have h := (c3_duration_clamped_nonneg (some 100) (some 40)).2.1 100 40 rfl rfl
  rw [h]
  norm_num

/-- C4: stages `accepted_to_in_kitchen` and `in_kitchen_to_ready` are both
computed over `acceptedAt → readyAt`, so their durations always agree; for
acceptedAt=09:00 and readyAt=09:30 both report duration 30 and breached. -/
theorem c4_shared_interval (o : OrderRecord) :
    (∃ s3 s4 : StageResult,
      (stages_of o)[2]? = some s3 ∧ (stages_of o)[3]? = some s4 ∧
      s3.key = .accepted_to_in_kitchen ∧ s4.key = .in_kitchen_to_ready ∧
      s3.segmentStart = o.acceptedAt ∧ s3.segmentEnd = o.readyAt ∧
      s4.segmentStart = o.acceptedAt ∧ s4.segmentEnd = o.readyAt ∧
      s3.duration = s4.duration ∧ s3.threshold = 5 ∧ s4.threshold = 15) ∧
    (((stages_of (⟨"B", none, none, some 32400, some 34200, none⟩ : OrderRecord))[2]?).map
        (fun s => (s.duration, s.breached)) = some (some 30, true)) ∧
    (((stages_of (⟨"B", none, none, some 32400, some 34200, none⟩ : OrderRecord))[3]?).map
        (fun s => (s.duration, s.breached)) = some (some 30, true)) := by
  refine ⟨⟨add_stage .accepted_to_in_kitchen o.acceptedAt o.readyAt,
           add_stage .in_kitchen_to_ready o.acceptedAt o.readyAt,
           rfl, rfl, rfl, rfl, rfl, rfl, rfl, rfl, rfl, rfl, rfl⟩,
         ?_, ?_⟩ <;>
  · show (some (add_stage _ _ _)).map _ = _
    simp [add_stage, diff_min, THRESHOLDS]
    norm_num

/-- C10: a breached stage always has a present `segmentEnd` (a breach needs
a resolved duration, which needs both endpoints), so the first-breach
filter on end presence never drops a breached stage. -/
theorem c10_breach_end_present (o : OrderRecord) (s : StageResult)
    (hs : s ∈ stages_of o) (hb : s.breached = true) :
    s.segmentEnd.isSome = true ∧ s.duration.isSome = true ∧
    breached_list o = (stages_of o).filter (fun t => t.breached) := by
  have hfil : breached_list o = (stages_of o).filter (fun t => t.breached) := by
    refine List.filter_congr ?_
    intro x hx
    cases hxb : x.breached with
    | false => simp [hxb]
    | true =>
      rcases mem_stages_of hx with h | h | h | h | h <;> subst h <;>
        simp [hxb] <;> exact (add_stage_breached_present _ _ _ hxb).1
  refine ⟨?_, ?_, hfil⟩ <;>
    rcases mem_stages_of hs with h | h | h | h | h <;> subst h
  case _ => exact (add_stage_breached_present _ _ _ hb).1
  all_goals first
    | exact (add_stage_breached_present _ _ _ hb).1
    | exact (add_stage_breached_present _ _ _ hb).2

/-- Witness for C10 at a concrete breached stage. -/
theorem c10_witness :
    (add_stage .created_to_placed (some 0) (some 600)).segmentEnd.isSome = true ∧
    (add_stage .created_to_placed (some 0) (some 600)).duration.isSome = true ∧
    breached_list ⟨"w", some 0, some 600, none, none, none⟩ =
      (stages_of ⟨"w", some 0, some 600, none, none, none⟩).filter
        (fun t => t.breached) :=
  c10_breach_end_present ⟨"w", some 0, some 600, none, none, none⟩ _
    (by simp [stages_of]) (by simp [add_stage, diff_min, THRESHOLDS]; norm_num)

